import Mathlib

/-!
Verification of the NanachiGo core (tree-path mutation, model-invocation
retry and parsing, persistence backends) against its specification.

The Go value universe `map[string]interface{} / []interface{} / string /
float64 / bool / nil` that the repository passes through every layer is
embedded as the inductive type `Jv`.  Go maps are modelled as association
lists with first-match lookup and in-place overwrite (`alGet` / `alSet`):
a Go map holds each key once, which association lists built only through
`alSet` preserve.  Go JSON numbers (float64 on the wire) are modelled at
integer precision; `UpdateNodeByPath`'s `int(idx)` truncation is the
identity on these.  `Jv.time` additionally models the backend-native
structured time value (`time.Time`, as Unix seconds) that the Firestore
decoder can hand back.
-/

namespace NanachiGo

/-- The loosely typed value universe the Go code passes around. -/
inductive Jv where
  | nul
  | boolean (b : Bool)
  | num (n : Int)
  | str (s : String)
  | arr (xs : List Jv)
  | obj (kvs : List (String × Jv))
  | time (t : Int)

/-- Whether the value is a keyed container (a Go `map[string]interface{}`). -/
def Jv.isObj : Jv → Bool
  | .obj _ => true
  | _ => false

/-- Whether the value is an ordered list (a Go `[]interface{}`). -/
def Jv.isArr : Jv → Bool
  | .arr _ => true
  | _ => false

/-- Whether the value is a Go string. -/
def Jv.isStr : Jv → Bool
  | .str _ => true
  | _ => false

/-- Go map read `m[k]`: first binding of `k`, if any. -/
def alGet {α : Type} (m : List (String × α)) (k : String) : Option α :=
  match m with
  | [] => none
  | (k2, v) :: rest => if k2 = k then some v else alGet rest k

/-- Go map write `m[k] = v`: overwrite the binding in place, or append. -/
def alSet {α : Type} (m : List (String × α)) (k : String) (v : α) :
    List (String × α) :=
  match m with
  | [] => [(k, v)]
  | (k2, w) :: rest => if k2 = k then (k2, v) :: rest else (k2, w) :: alSet rest k v

/-- Go map delete: remove every binding of `k`. -/
def alRemove {α : Type} (m : List (String × α)) (k : String) :
    List (String × α) :=
  match m with
  | [] => []
  | (k2, w) :: rest => if k2 = k then alRemove rest k else (k2, w) :: alRemove rest k

/-- The merge loop `for k, v := range updates { node[k] = v }` of
`UpdateNodeByPath` (src/internal/utils/utils.go:828-830 and 857-859). -/
def mergeObj (node : List (String × Jv)) (updates : List (String × Jv)) :
    List (String × Jv) :=
  updates.foldl (fun acc kv => alSet acc kv.1 kv.2) node

/-- `UpdateNodeByPath` (src/internal/utils/utils.go:812-869).  The Go
function mutates the shared structure in place and returns a bool; every
write it performs happens in a branch that immediately returns `true`, so
the faithful functional translation returns the new root on success and
the untouched root on failure.  Path segments arrive as JSON values: a
string descends by field name, a number (float64 in Go, truncated by
`int(idx)`) indexes a list, anything else hits the `default: return false`
arm. -/
def updateNodeByPath (current : Jv) (path : List Jv)
    (updates : List (String × Jv)) : Bool × Jv :=
  match path with
  | [] => (false, current)
  | seg :: rest =>
    match seg with
    | .str s =>
      match current with
      | .obj m =>
        if rest.isEmpty then
          match alGet m s with
          | none => (false, .obj m)
          | some (.obj node) =>
              (true, .obj (alSet m s (.obj (mergeObj node updates))))
          | some _ => (true, .obj (alSet m s (.obj updates)))
        else
          let r := updateNodeByPath ((alGet m s).getD .nul) rest updates
          if r.1 then (true, .obj (alSet m s r.2)) else (false, .obj m)
      | _ => (false, current)
    | .num i =>
      match current with
      | .arr l =>
        if i < 0 then (false, .arr l)
        else
          match l.get? i.toNat with
          | none => (false, .arr l)
          | some elem =>
            if rest.isEmpty then
              match elem with
              | .obj node =>
                  (true, .arr (l.set i.toNat (.obj (mergeObj node updates))))
              | _ => (false, .arr l)
            else
              let r := updateNodeByPath elem rest updates
              if r.1 then (true, .arr (l.set i.toNat r.2)) else (false, .arr l)
      | _ => (false, current)
    | _ => (false, current)

/-- Pure descent along the non-final traversal rules of `UpdateNodeByPath`:
a field segment reads the key (a missing key yields Go's `nil`), an index
segment requires an in-range list position. -/
def resolvePath (current : Jv) (path : List Jv) : Option Jv :=
  match path with
  | [] => some current
  | seg :: rest =>
    match seg with
    | .str s =>
      match current with
      | .obj m => resolvePath ((alGet m s).getD .nul) rest
      | _ => none
    | .num i =>
      match current with
      | .arr l =>
        if i < 0 then none
        else
          match l.get? i.toNat with
          | none => none
          | some elem => resolvePath elem rest
      | _ => none
    | _ => none

/-- Rebuild the spine: the tree with the value at `path` replaced by `v`
(meaningful where `resolvePath` succeeds; elsewhere it returns the tree). -/
def setAt (current : Jv) (path : List Jv) (v : Jv) : Jv :=
  match path with
  | [] => v
  | seg :: rest =>
    match seg with
    | .str s =>
      match current with
      | .obj m => .obj (alSet m s (setAt ((alGet m s).getD .nul) rest v))
      | _ => current
    | .num i =>
      match current with
      | .arr l =>
        if i < 0 then current
        else
          match l.get? i.toNat with
          | none => current
          | some elem => .arr (l.set i.toNat (setAt elem rest v))
      | _ => current
    | _ => current

/-- The `isLast` arm of `UpdateNodeByPath` as a single step on the node the
non-final segments resolved to: `some` is the updated node, `none` the
`return false` arms. -/
def applyFinalSeg (current : Jv) (seg : Jv) (updates : List (String × Jv)) :
    Option Jv :=
  match seg with
  | .str s =>
    match current with
    | .obj m =>
      match alGet m s with
      | none => none
      | some (.obj node) => some (.obj (alSet m s (.obj (mergeObj node updates))))
      | some _ => some (.obj (alSet m s (.obj updates)))
    | _ => none
  | .num i =>
    match current with
    | .arr l =>
      if i < 0 then none
      else
        match l.get? i.toNat with
        | none => none
        | some (.obj node) => some (.arr (l.set i.toNat (.obj (mergeObj node updates))))
        | some _ => none
    | _ => none
  | _ => none

/-!
JSON parsing.  `CallClaude` (src/internal/utils/utils.go:683-698) and
`CallGemini` (745-757) run `json.Unmarshal` of the raw model text into a
`map[string]interface{}` and, when that fails, re-run it on the substring
the regex `\x7b[\s\S]*\x7d` finds (first opening brace through last
closing brace).  `parseJv` below is a fuel-indexed recursive-descent
parser for the JSON grammar as `encoding/json` reads it, restricted to
integer numeric literals (a fractional or exponent literal makes the
parse fail; no claim touches one) and to non-surrogate `\u` escapes. -/

/-- The opening brace character, kept out of string literals. -/
def lbrace : Char := Char.ofNat 123

/-- The closing brace character. -/
def rbrace : Char := Char.ofNat 125

/-- JSON insignificant whitespace (also what `encoding/json` skips). -/
def isJsonWs (c : Char) : Bool :=
  c = ' ' || c = '\t' || c = '\n' || c = '\r'

/-- Drop leading JSON whitespace. -/
def skipWs : List Char → List Char
  | [] => []
  | c :: rest => if isJsonWs c then skipWs rest else c :: rest

/-- Hex digit value, if any. -/
def hexVal (c : Char) : Option Nat :=
  if '0' ≤ c ∧ c ≤ '9' then some (c.toNat - '0'.toNat)
  else if 'a' ≤ c ∧ c ≤ 'f' then some (c.toNat - 'a'.toNat + 10)
  else if 'A' ≤ c ∧ c ≤ 'F' then some (c.toNat - 'A'.toNat + 10)
  else none

/-- Body of a JSON string after the opening quote: the decoded string and
the input after the closing quote. -/
def parseStrBody : List Char → List Char → Option (String × List Char)
  | [], _ => none
  | c :: rest, acc =>
    if c = '"' then some (String.mk acc.reverse, rest)
    else if c = '\\' then
      match rest with
      | [] => none
      | e :: rest2 =>
        if e = '"' ∨ e = '\\' ∨ e = '/' then parseStrBody rest2 (e :: acc)
        else if e = 'n' then parseStrBody rest2 ('\n' :: acc)
        else if e = 't' then parseStrBody rest2 ('\t' :: acc)
        else if e = 'r' then parseStrBody rest2 ('\r' :: acc)
        else if e = 'b' then parseStrBody rest2 (Char.ofNat 8 :: acc)
        else if e = 'f' then parseStrBody rest2 (Char.ofNat 12 :: acc)
        else if e = 'u' then
          match rest2 with
          | h1 :: h2 :: h3 :: h4 :: rest3 =>
            match hexVal h1, hexVal h2, hexVal h3, hexVal h4 with
            | some a, some b, some c2, some d =>
                parseStrBody rest3 (Char.ofNat (((a * 16 + b) * 16 + c2) * 16 + d) :: acc)
            | _, _, _, _ => none
          | _ => none
        else none
    else parseStrBody rest (c :: acc)

/-- Leading decimal digits and the rest of the input. -/
def takeDigits : List Char → List Char → (List Char × List Char)
  | [], acc => (acc.reverse, [])
  | c :: rest, acc =>
    if c.isDigit then takeDigits rest (c :: acc) else (acc.reverse, c :: rest)

/-- Value of a nonempty digit string. -/
def digitsToNat (ds : List Char) : Nat :=
  ds.foldl (fun n c => n * 10 + (c.toNat - '0'.toNat)) 0

/-- Does the list start with the given characters? -/
def startsWithChars : List Char → List Char → Bool
  | [], _ => true
  | _ :: _, [] => false
  | p :: ps, c :: cs => p = c && startsWithChars ps cs

mutual

/-- One JSON value and the remaining input. -/
def parseJv : Nat → List Char → Option (Jv × List Char)
  | 0, _ => none
  | fuel + 1, cs =>
    match skipWs cs with
    | [] => none
    | c :: rest =>
      if c = '"' then
        match parseStrBody rest [] with
        | some (s, rest2) => some (.str s, rest2)
        | none => none
      else if c = lbrace then
        match skipWs rest with
        | c2 :: rest2 =>
          if c2 = rbrace then some (.obj [], rest2)
          else
            match parseMembers fuel (c2 :: rest2) [] with
            | some (m, rest3) => some (.obj m, rest3)
            | none => none
        | [] => none
      else if c = '[' then
        match skipWs rest with
        | c2 :: rest2 =>
          if c2 = ']' then some (.arr [], rest2)
          else
            match parseElems fuel (c2 :: rest2) [] with
            | some (l, rest3) => some (.arr l, rest3)
            | none => none
        | [] => none
      else if startsWithChars ['t', 'r', 'u', 'e'] (c :: rest) then
        some (.boolean true, rest.drop 3)
      else if startsWithChars ['f', 'a', 'l', 's', 'e'] (c :: rest) then
        some (.boolean false, rest.drop 4)
      else if startsWithChars ['n', 'u', 'l', 'l'] (c :: rest) then
        some (.nul, rest.drop 3)
      else if c = '-' then
        match rest with
        | d :: rest2 =>
          if d.isDigit then
            let (ds, rest3) := takeDigits (d :: rest2) []
            match rest3 with
            | e :: _ => if e = '.' ∨ e = 'e' ∨ e = 'E' then none
                        else some (.num (-(digitsToNat ds : Int)), rest3)
            | [] => some (.num (-(digitsToNat ds : Int)), [])
          else none
        | [] => none
      else if c.isDigit then
        let (ds, rest3) := takeDigits (c :: rest) []
        match rest3 with
        | e :: _ => if e = '.' ∨ e = 'e' ∨ e = 'E' then none
                    else some (.num (digitsToNat ds : Int), rest3)
        | [] => some (.num (digitsToNat ds : Int), [])
      else none

/-- Object members from the first key on; duplicate keys overwrite, as
`encoding/json` keeps the last binding of a repeated key. -/
def parseMembers (fuel : Nat) (cs : List Char) (acc : List (String × Jv)) :
    Option (List (String × Jv) × List Char) :=
  match fuel with
  | 0 => none
  | fuel + 1 =>
    match skipWs cs with
    | c :: rest =>
      if c = '"' then
        match parseStrBody rest [] with
        | some (k, rest2) =>
          match skipWs rest2 with
          | c2 :: rest3 =>
            if c2 = ':' then
              match parseJv fuel rest3 with
              | some (v, rest4) =>
                match skipWs rest4 with
                | c3 :: rest5 =>
                  if c3 = ',' then parseMembers fuel rest5 (alSet acc k v)
                  else if c3 = rbrace then some (alSet acc k v, rest5)
                  else none
                | [] => none
              | none => none
            else none
          | [] => none
        | none => none
      else none
    | [] => none

/-- Array elements from the first element on. -/
def parseElems (fuel : Nat) (cs : List Char) (acc : List Jv) :
    Option (List Jv × List Char) :=
  match fuel with
  | 0 => none
  | fuel + 1 =>
    match parseJv fuel cs with
    | some (v, rest) =>
      match skipWs rest with
      | c :: rest2 =>
        if c = ',' then parseElems fuel rest2 (v :: acc)
        else if c = ']' then some ((v :: acc).reverse, rest2)
        else none
      | [] => none
    | none => none

end

/-- `json.Unmarshal(text, &result)` with `result : map[string]interface{}`:
the whole input must be one JSON object, up to surrounding whitespace. -/
def parseJsonObject (text : String) : Option (List (String × Jv)) :=
  match parseJv (text.length + 1) text.data with
  | some (.obj m, rest) => if (skipWs rest).isEmpty then some m else none
  | _ => none

/-- Index of the first occurrence of `c`, if any. -/
def firstIdx (c : Char) : List Char → Option Nat
  | [] => none
  | x :: rest =>
    if x = c then some 0
    else match firstIdx c rest with
      | some i => some (i + 1)
      | none => none

/-- Index of the last occurrence of `c`, if any. -/
def lastIdx (c : Char) (cs : List Char) : Option Nat :=
  match firstIdx c cs.reverse with
  | some i => some (cs.length - 1 - i)
  | none => none

/-- `regexp.MustCompile` of an opening brace, `[\s\S]*` and a closing
brace, applied with `FindString`: the span from the first opening brace
to the last closing brace, when the latter lies after the former
(otherwise `FindString` returns the empty string, which the callers
treat as no match). -/
def extractBraceSpan (s : String) : Option String :=
  match firstIdx lbrace s.data, lastIdx rbrace s.data with
  | some i, some j =>
    if i < j then some (String.mk ((s.data.drop i).take (j - i + 1))) else none
  | _, _ => none

/-- The terminal outcomes of `CallClaude` / `CallGemini`, as the callers
see them. -/
inductive CallErr where
  | api (msg : String)
  | emptyContent
  | parse (raw : String)
  | exhausted

/-- The two-stage output parsing shared verbatim by `CallClaude`
(src/internal/utils/utils.go:683-698) and `CallGemini` (745-757): direct
`json.Unmarshal`, then unmarshal of the extracted brace span, then a
permanent parse failure carrying the raw text. -/
def parseModelResponse (text : String) : Except CallErr (List (String × Jv)) :=
  match parseJsonObject text with
  | some result => .ok result
  | none =>
    match extractBraceSpan text with
    | some jsonMatch =>
      match parseJsonObject jsonMatch with
      | some result => .ok result
      | none => .error (.parse text)
    | none => .error (.parse text)

/-!
The retry loop of `CallClaude` (src/internal/utils/utils.go:637-670).
The remote call `client.InvokeModel` together with the body unmarshal is
abstracted as an oracle from the attempt index to its outcome: `failure`
is an `InvokeModel` error with the error string the Go code inspects,
`success` the decoded `ClaudeResponse.Content` texts.  `time.Sleep d` is
recorded in `sleeps` (one time unit = one second of the Go code).
-/

/-- One attempt's outcome at the Bedrock boundary. -/
inductive BedrockResult where
  | failure (msg : String)
  | success (contents : List String)

/-- Does `needle` occur as a contiguous run inside `hay`? -/
def hasSubstring : List Char → List Char → Bool
  | hay, needle =>
    if startsWithChars needle hay then true
    else
      match hay with
      | [] => false
      | _ :: rest => hasSubstring rest needle

/-- `strings.Contains`. -/
def strContains (s pat : String) : Bool :=
  hasSubstring s.data pat.data

/-- The transient-failure test of `CallClaude` (utils.go:654):
the error text names a throttling or service exception. -/
def isTransientErr (msg : String) : Bool :=
  strContains msg "ThrottlingException" || strContains msg "ServiceException"

/-- `maxRetries` of `CallClaude`: total attempts. -/
def maxRetries : Nat := 3

/-- What one `CallClaude` run did: how many `InvokeModel` calls it made,
which delays it slept (in order), and its terminal outcome. -/
structure ClaudeRun where
  attempts : Nat
  sleeps : List Nat
  result : Except CallErr (List (String × Jv))

/-- The body of the `for i := range maxRetries` loop, unrolled on the
remaining fuel (`maxRetries - i`).  A transient failure before the last
attempt sleeps `delay` and doubles it; the last attempt's failure returns
the permanent API error; any other failure retries at once with no sleep
(the `continue` at utils.go:668); a success parses the first content text
(an empty content list is its own error) and never retries. -/
def callClaudeAux (oracle : Nat → BedrockResult) :
    Nat → Nat → Nat → List Nat → ClaudeRun
  | 0, i, _, sleeps => ⟨i, sleeps.reverse, .error .exhausted⟩
  | fuel + 1, i, delay, sleeps =>
    match oracle i with
    | .failure msg =>
      if isTransientErr msg ∧ i < maxRetries - 1 then
        callClaudeAux oracle fuel (i + 1) (delay * 2) (delay :: sleeps)
      else if i = maxRetries - 1 then
        ⟨i + 1, sleeps.reverse, .error (.api msg)⟩
      else
        callClaudeAux oracle fuel (i + 1) delay sleeps
    | .success contents =>
      match contents with
      | [] => ⟨i + 1, sleeps.reverse, .error .emptyContent⟩
      | text :: _ => ⟨i + 1, sleeps.reverse, parseModelResponse text⟩

/-- `CallClaude` under the oracle: up to `maxRetries` attempts, delay
starting at one time unit. -/
def callClaude (oracle : Nat → BedrockResult) : ClaudeRun :=
  callClaudeAux oracle maxRetries 0 1 []

/-!
Persistence (src/unnamed/part_004 and part_005, package db).  Both
backends are remote stores; each is embedded as a transition on an
abstract store state mapping identifiers to items, with the documented
semantics of the one call the Go function issues: DynamoDB `PutItem`
with `ConditionExpression: attribute_not_exists(id)` is an atomic
create-if-absent, DynamoDB `DeleteItem` without a condition succeeds
whether or not the key exists, Firestore `Doc(id).Set` is an
unconditional upsert, Firestore `Doc(id).Delete` succeeds whether or not
the document exists.  Client-construction and network failures are
outside the model: the embedded functions describe a call that reaches
the store.
-/

/-- The Document record (`MindmapItem`, src/unnamed/part_004:208-218).
`mindmapData` is `none` where the Go map is nil. -/
structure MindmapItem where
  id : String
  filename : String
  title : String
  authors : List String
  date : String
  mindmapData : Option (List (String × Jv))
  pdfText : String
  createdAt : String
  updatedAt : String

/-- The abstract store state, keyed by the item identifier. -/
def Store : Type := List (String × MindmapItem)

/-- A persistence failure the caller sees. -/
inductive DbErr where
  | conditionalCheckFailed

/-- `CreateMindmap` (src/unnamed/part_004:221-239): a conditional
`PutItem`.  The marshalled item is stored under its own `id` attribute —
no identifier is generated, whatever `item.id` holds. -/
def createMindmap (store : Store) (item : MindmapItem) :
    Store × Except DbErr String :=
  if (alGet store item.id).isSome then (store, .error .conditionalCheckFailed)
  else (alSet store item.id item, .ok item.id)

/-- `CreateMindmapGCP` (src/unnamed/part_005:307-322): a fresh random
identifier (`uuid.New().String()`, passed in as `freshId`) when the
caller supplied none, then `Doc(id).Set(ctx, item)` — an upsert. -/
def createMindmapGCP (store : Store) (item : MindmapItem) (freshId : String) :
    Store × Except DbErr String :=
  let item2 := if item.id = "" then { item with id := freshId } else item
  (alSet store item2.id item2, .ok item2.id)

/-- `DeleteMindmapByID` (src/unnamed/part_004:304-319): an unconditional
`DeleteItem`; the function returns `true` whenever the call succeeds. -/
def deleteMindmapByID (store : Store) (id : String) : Store × Bool :=
  (alRemove store id, true)

/-- `DeleteMindmapByIDGCP` (src/unnamed/part_005:352-363): an
unconditional `Doc(id).Delete`; returns `true` whenever the call
succeeds. -/
def deleteMindmapByIDGCP (store : Store) (id : String) : Store × Bool :=
  (alRemove store id, true)

/-!
`snapshotToMindmapItem` (src/unnamed/part_005:395-511), the read-side
normalization of a Firestore document snapshot.  Snapshot data is a `Jv`
association list; `Jv.time t` models a decoded `time.Time` at `t` Unix
seconds, and `Jv.num` the `int64`/`float64` of a Unix-seconds field.
`go`'s `t.UTC().Format(time.RFC3339)` is `isoOfUnix`.  `fmt.Sprintf` with
the `v` verb on a non-string scalar is `jvDisplay` (exact for integers
and booleans, which are the shapes the theorems touch; layout of other
defaults is immaterial to every claim).
-/

/-- Left-pad a decimal rendering with zeros. -/
def padZeros (width : Nat) (n : Nat) : String :=
  let s := toString n
  String.mk (List.replicate (width - s.length) '0') ++ s

/-- `time.Unix(t, 0).UTC().Format(time.RFC3339)`: the proleptic-Gregorian
civil date (days-from-epoch conversion) and the time of day, rendered as
an ISO-8601 / RFC3339 UTC string. -/
def isoOfUnix (t : Int) : String :=
  let days := Int.fdiv t 86400
  let secs := (t - days * 86400).toNat
  let z := days + 719468
  let era := Int.fdiv z 146097
  let doe := (z - era * 146097).toNat
  let yoe := (doe - doe / 1460 + doe / 36524 - doe / 146096) / 365
  let doy := doe - (365 * yoe + yoe / 4 - yoe / 100)
  let mp := (5 * doy + 2) / 153
  let d := doy - (153 * mp + 2) / 5 + 1
  let m := if mp < 10 then mp + 3 else mp - 9
  let y : Int := (yoe : Int) + era * 400 + (if m ≤ 2 then 1 else 0)
  let ystr := if y < 0 then "-" ++ padZeros 4 (-y).toNat else padZeros 4 y.toNat
  ystr ++ "-" ++ padZeros 2 m ++ "-" ++ padZeros 2 d ++ "T" ++
    padZeros 2 (secs / 3600) ++ ":" ++ padZeros 2 (secs % 3600 / 60) ++ ":" ++
    padZeros 2 (secs % 60) ++ "Z"

/-- `fmt.Sprintf` default formatting of a decoded snapshot value that is
not a string (the `fmt.Stringer`/default arms of `getString` and the
default arm of `toStringSlice`). -/
def jvDisplay : Jv → String
  | .nul => "<nil>"
  | .boolean b => if b then "true" else "false"
  | .num n => toString n
  | .str s => s
  | .time t => isoOfUnix t
  | .arr _ => "[...]"
  | .obj _ => "map[...]"

/-- The `val(keys...)` helper (part_005:399-408): the first candidate key
bound to a non-nil value. -/
def fsVal (data : List (String × Jv)) : List String → Option Jv
  | [] => none
  | k :: ks =>
    match alGet data k with
    | some v =>
      match v with
      | .nul => fsVal data ks
      | _ => some v
    | none => fsVal data ks

/-- The `getString(keys...)` helper (part_005:410-421). -/
def getStringKeys (data : List (String × Jv)) (keys : List String) : String :=
  match fsVal data keys with
  | none => ""
  | some (.str t) => t
  | some v => jvDisplay v

/-- The `toISOString` helper (part_005:423-454): a pre-formatted string
passes through, a structured time value and a map carrying a numeric
`_seconds` or `seconds` field normalize to the RFC3339 string, anything
else to the empty string. -/
def toISOStringJv : Option Jv → String
  | some (.str t) => t
  | some (.time t) => isoOfUnix t
  | some (.obj m) =>
    match alGet m "_seconds" with
    | some (.num sv) => isoOfUnix sv
    | _ =>
      match alGet m "seconds" with
      | some (.num sv) => isoOfUnix sv
      | _ => ""
  | _ => ""

/-- The `toStringSlice` helper (part_005:456-477): nil to an empty list, a
list elementwise (strings kept, others via `fmt.Sprintf`), a bare string
to a singleton, anything else to an empty list. -/
def toStringSlice : Option Jv → List String
  | none => []
  | some .nul => []
  | some (.arr l) =>
    l.map fun e =>
      match e with
      | .str s => s
      | _ => jvDisplay e
  | some (.str s) => [s]
  | some _ => []

/-- `snapshotToMindmapItem` (part_005:479-511): assemble the item, trying
the lower-camel then the upper-camel spelling of every field, and accept
`mindmapData` as a nested map or as a JSON string parsed on read
(`[]byte` data, a third arm of the Go switch, is not modelled). -/
def snapshotToMindmapItem (docId : String) (data : List (String × Jv)) :
    MindmapItem :=
  { id := docId
    filename := getStringKeys data ["filename", "Filename"]
    title := getStringKeys data ["title", "Title"]
    authors := toStringSlice (fsVal data ["authors", "Authors"])
    date := getStringKeys data ["date", "Date"]
    pdfText := getStringKeys data ["pdfText", "PDFText"]
    createdAt := toISOStringJv (fsVal data ["createdAt", "CreatedAt"])
    updatedAt := toISOStringJv (fsVal data ["updatedAt", "UpdatedAt"])
    mindmapData :=
      match fsVal data ["mindmapData", "MindmapData"] with
      | some (.obj md) => some md
      | some (.str s) => parseJsonObject s
      | _ => none }

/-!
`UploadPaper`'s title fallback (src/internal/utils/utils.go:498-505) and
the children-patch tail shared by `RemakeSubtreeHandler` (1016-1031) and
`GoDeeperHandler` (1097-1112).
-/

/-- `filepath.Ext`: the suffix of the final slash-separated element
beginning at its final dot, or the empty string. -/
def filepathExt (f : String) : String :=
  let rec fromRev : List Char → List Char → String
    | [], _ => ""
    | c :: rest, acc =>
      if c = '.' then String.mk ('.' :: acc)
      else if c = '/' then ""
      else fromRev rest (c :: acc)
  fromRev f.data.reverse []

/-- Does the list end with the given characters? -/
def endsWithChars (s suf : List Char) : Bool :=
  startsWithChars suf.reverse s.reverse

/-- `strings.TrimSuffix`. -/
def trimSuffix (s suffix : String) : String :=
  if endsWithChars s.data suffix.data then
    String.mk (s.data.take (s.data.length - suffix.data.length))
  else s

/-- Go `unicode.IsSpace` on the ASCII range. -/
def isSpaceChar (c : Char) : Bool :=
  c = ' ' || c = '\t' || c = '\n' || c = '\r' ||
    c = Char.ofNat 11 || c = Char.ofNat 12

/-- `strings.TrimSpace`, on ASCII whitespace. -/
def goTrimSpace (s : String) : String :=
  String.mk (((s.data.dropWhile isSpaceChar).reverse.dropWhile isSpaceChar).reverse)

/-- The title `UploadPaper` stores: the metadata `title` when it is a
string that trims to something nonempty (the trimmed form is what is
stored), else the upload's filename with its extension stripped. -/
def uploadTitle (metadata : List (String × Jv)) (filename : String) : String :=
  let t :=
    match alGet metadata "title" with
    | some (.str s) => s
    | _ => ""
  let t := goTrimSpace t
  if t = "" then trimSuffix filename (filepathExt filename) else t

/-- The `children` extraction of `RemakeSubtreeHandler` (1016-1019) and
`GoDeeperHandler` (1097-1100): the model result's `children` value when
it is a list, else the nil slice (an empty list). -/
def extractChildren (result : List (String × Jv)) : List Jv :=
  match alGet result "children" with
  | some (.arr c) => c
  | _ => []

/-- The shared tail of the two subtree actions: patch the addressed node's
`children` through `UpdateNodeByPath` and, on success, persist the new
tree and answer success with the same children list; `none` is the
`node path not found` response. -/
def applyChildrenAction (result : List (String × Jv)) (data : Jv)
    (nodePath : List Jv) : Option (Jv × List Jv) :=
  let children := extractChildren result
  let r := updateNodeByPath data nodePath [("children", .arr children)]
  if r.1 then some (r.2, children) else none

/-! Association-list and merge lemmas. -/

theorem alGet_alSet_self {α : Type} (m : List (String × α)) (k : String) (v : α) :
    alGet (alSet m k v) k = some v := by
  induction m with
  | nil => simp [alGet, alSet]
  | cons kv rest ih =>
    obtain ⟨k2, w⟩ := kv
    by_cases h : k2 = k
    · simp [alGet, alSet, h]
    · simp [alGet, alSet, h, ih]

theorem alGet_alSet_ne {α : Type} (m : List (String × α)) (k k2 : String) (v : α)
    (h : k ≠ k2) : alGet (alSet m k v) k2 = alGet m k2 := by
  induction m with
  | nil => simp [alGet, alSet, h]
  | cons kv rest ih =>
    obtain ⟨k3, w⟩ := kv
    by_cases h3 : k3 = k
    · subst h3
      simp [alGet, alSet, h]
    · simp only [alSet, if_neg h3]
      by_cases h4 : k3 = k2 <;> simp [alGet, h4, ih]

theorem mergeObj_cons (node : List (String × Jv)) (kv : String × Jv)
    (u : List (String × Jv)) :
    mergeObj node (kv :: u) = mergeObj (alSet node kv.1 kv.2) u := rfl

theorem alGet_mergeObj_not_mem (u : List (String × Jv)) (node : List (String × Jv))
    (k : String) (h : k ∉ u.map Prod.fst) :
    alGet (mergeObj node u) k = alGet node k := by
  induction u generalizing node with
  | nil => rfl
  | cons kv u ih =>
    simp only [List.map_cons, List.mem_cons] at h
    push_neg at h
    rw [mergeObj_cons, ih _ h.2, alGet_alSet_ne _ _ _ _ (fun e => h.1 e.symm)]

theorem alGet_mergeObj_mem (u : List (String × Jv)) (node : List (String × Jv))
    (k : String) (v : Jv) (hnd : (u.map Prod.fst).Nodup)
    (h : alGet u k = some v) :
    alGet (mergeObj node u) k = some v := by
  induction u generalizing node with
  | nil => simp [alGet] at h
  | cons kv u ih =>
    obtain ⟨k1, v1⟩ := kv
    simp only [List.map_cons, List.nodup_cons] at hnd
    rw [mergeObj_cons]
    by_cases h1 : k1 = k
    · subst h1
      simp only [alGet, if_true, eq_self_iff_true, Option.some.injEq] at h
      subst h
      rw [alGet_mergeObj_not_mem _ _ _ hnd.1, alGet_alSet_self]
    · simp only [alGet, if_neg h1] at h
      exact ih _ hnd.2 h

/-! Structural lemmas about `updateNodeByPath`. -/

/-- Every run either succeeds, or fails returning the tree it was given:
the Go loop writes into the tree only in branches that return `true`. -/
theorem update_shape (c : Jv) (p : List Jv) (u : List (String × Jv)) :
    updateNodeByPath c p u = (true, (updateNodeByPath c p u).2) ∨
      updateNodeByPath c p u = (false, c) := by
  cases p with
  | nil => exact Or.inr rfl
  | cons seg rest =>
    cases seg <;> try exact Or.inr rfl
    all_goals cases c <;> try exact Or.inr rfl
    all_goals simp only [updateNodeByPath]
    all_goals repeat' first
      | exact Or.inl rfl
      | exact Or.inr rfl
      | split

/-- A failed run returns the tree unchanged. -/
theorem update_failure_eq (c : Jv) (p : List Jv) (u : List (String × Jv))
    (h : (updateNodeByPath c p u).1 = false) :
    updateNodeByPath c p u = (false, c) := by
  rcases update_shape c p u with hs | hs
  · rw [hs] at h
    simp at h
  · exact hs

/-- A nonempty path never applies to Go's `nil`. -/
theorem update_nul_nonempty (seg : Jv) (rest : List Jv) (u : List (String × Jv)) :
    (updateNodeByPath .nul (seg :: rest) u).1 = false := by
  cases seg <;> rfl

/-- A one-segment path is exactly the `isLast` step. -/
theorem update_single (c : Jv) (seg : Jv) (u : List (String × Jv)) :
    updateNodeByPath c [seg] u =
      match applyFinalSeg c seg u with
      | none => (false, c)
      | some v => (true, v) := by
  cases seg <;> cases c <;> try rfl
  · next i l =>
    simp only [updateNodeByPath, applyFinalSeg]
    by_cases hi : i < 0
    · simp [hi]
    · simp only [if_neg hi]
      cases h : l.get? i.toNat with
      | none => rfl
      | some elem => cases elem <;> rfl
  · next s m =>
    simp only [updateNodeByPath, applyFinalSeg, List.isEmpty_nil, if_true]
    cases h : alGet m s with
    | none => rfl
    | some v => cases v <;> rfl

/-- Splitting a run at a nonempty tail: the prefix resolves, the tail
runs on the resolved node, and a successful result is written back along
the prefix. -/
theorem update_split (u : List (String × Jv)) (q : List Jv) (hq : q ≠ [])
    (p : List Jv) (c : Jv) :
    updateNodeByPath c (p ++ q) u =
      match resolvePath c p with
      | none => (false, c)
      | some mid =>
        if (updateNodeByPath mid q u).1 then
          (true, setAt c p (updateNodeByPath mid q u).2)
        else (false, c) := by
  have hqe : ∀ p2 : List Jv, (p2 ++ q).isEmpty = false := by
    intro p2
    cases p2 <;> cases q <;> simp_all [List.isEmpty]
  induction p generalizing c with
  | nil =>
    simp only [List.nil_append, resolvePath, setAt]
    rcases update_shape c q u with hs | hs <;> rw [hs] <;> rfl
  | cons seg p ih =>
    cases seg <;> try rfl
    · next i =>
      cases c <;> try rfl
      next l =>
      simp only [List.cons_append, updateNodeByPath, resolvePath, setAt]
      by_cases hi : i < 0
      · simp [hi]
      · simp only [if_neg hi]
        cases hg : l.get? i.toNat with
        | none => rfl
        | some elem =>
          simp only [List.append_eq, hqe, Bool.false_eq_true, if_false, ih elem]
          cases hr : resolvePath elem p with
          | none => rfl
          | some mid =>
            by_cases hb : (updateNodeByPath mid q u).1 = true <;> simp [hb]
    · next s =>
      cases c <;> try rfl
      next m =>
      simp only [List.cons_append, updateNodeByPath, resolvePath, setAt]
      simp only [List.append_eq, hqe, Bool.false_eq_true, if_false,
        ih ((alGet m s).getD .nul)]
      cases hr : resolvePath ((alGet m s).getD .nul) p with
      | none => rfl
      | some mid =>
        by_cases hb : (updateNodeByPath mid q u).1 = true <;> simp [hb]

/-- Descent distributes over path concatenation. -/
theorem resolve_append (p q : List Jv) (c : Jv) :
    resolvePath c (p ++ q) = (resolvePath c p).bind (fun m => resolvePath m q) := by
  induction p generalizing c with
  | nil => rfl
  | cons seg p ih =>
    cases seg <;> try rfl
    · next i =>
      cases c <;> try rfl
      next l =>
      simp only [List.cons_append, resolvePath]
      by_cases hi : i < 0
      · simp [hi]
      · simp only [if_neg hi]
        cases hg : l.get? i.toNat with
        | none => rfl
        | some elem => exact ih elem
    · next s =>
      cases c <;> try rfl
      next m =>
      exact ih ((alGet m s).getD .nul)

/-- Reading back a written position: where descent reached a node, descent
of the rebuilt tree reaches the written value. -/
theorem resolvePath_obj_str (m : List (String × Jv)) (s : String) (p : List Jv) :
    resolvePath (.obj m) (.str s :: p) = resolvePath ((alGet m s).getD .nul) p := rfl

theorem resolvePath_arr_num (l : List Jv) (i : Int) (p : List Jv) :
    resolvePath (.arr l) (.num i :: p) =
      if i < 0 then none
      else
        match l.get? i.toNat with
        | none => none
        | some elem => resolvePath elem p := rfl

theorem setAt_obj_str (m : List (String × Jv)) (s : String) (p : List Jv) (v : Jv) :
    setAt (.obj m) (.str s :: p) v =
      .obj (alSet m s (setAt ((alGet m s).getD .nul) p v)) := rfl

theorem setAt_arr_num (l : List Jv) (i : Int) (p : List Jv) (v : Jv) :
    setAt (.arr l) (.num i :: p) v =
      if i < 0 then .arr l
      else
        match l.get? i.toNat with
        | none => .arr l
        | some elem => .arr (l.set i.toNat (setAt elem p v)) := rfl

theorem resolve_setAt (p : List Jv) (c mid v : Jv)
    (h : resolvePath c p = some mid) :
    resolvePath (setAt c p v) p = some v := by
  induction p generalizing c with
  | nil => rfl
  | cons seg p ih =>
    cases seg <;> try exact Option.noConfusion h
    · next i =>
      cases c <;> try exact Option.noConfusion h
      next l =>
      rw [resolvePath_arr_num] at h
      rw [setAt_arr_num]
      by_cases hi : i < 0
      · rw [if_pos hi] at h
        exact Option.noConfusion h
      · rw [if_neg hi] at h ⊢
        cases hg : l.get? i.toNat with
        | none =>
          rw [hg] at h
          exact Option.noConfusion h
        | some elem =>
          rw [hg] at h
          have h2 : resolvePath elem p = some mid := h
          have hlen : i.toNat < l.length := (List.get?_eq_some.mp hg).1
          show resolvePath (.arr (l.set i.toNat (setAt elem p v))) (.num i :: p) = some v
          rw [resolvePath_arr_num, if_neg hi, List.get?_set_eq_of_lt _ hlen]
          exact ih _ h2
    · next s =>
      cases c <;> try exact Option.noConfusion h
      next m =>
      rw [resolvePath_obj_str] at h
      rw [setAt_obj_str, resolvePath_obj_str, alGet_alSet_self]
      exact ih _ h

/-! The final-segment arms, under each hypothesis on the addressed value. -/

theorem applyFinal_str_merge (m node u : List (String × Jv)) (s : String)
    (hget : alGet m s = some (.obj node)) :
    applyFinalSeg (.obj m) (.str s) u =
      some (.obj (alSet m s (.obj (mergeObj node u)))) := by
  simp only [applyFinalSeg]
  rw [hget]

theorem applyFinal_str_replace (m u : List (String × Jv)) (s : String) (w : Jv)
    (hget : alGet m s = some w) (hw : w.isObj = false) :
    applyFinalSeg (.obj m) (.str s) u = some (.obj (alSet m s (.obj u))) := by
  simp only [applyFinalSeg]
  rw [hget]
  cases w <;> first | rfl | simp [Jv.isObj] at hw

theorem applyFinal_str_none (m u : List (String × Jv)) (s : String)
    (hget : alGet m s = none) :
    applyFinalSeg (.obj m) (.str s) u = none := by
  simp only [applyFinalSeg]
  rw [hget]

theorem applyFinal_num_merge (l : List Jv) (node u : List (String × Jv)) (i : Int)
    (hi : ¬i < 0) (hget : l.get? i.toNat = some (.obj node)) :
    applyFinalSeg (.arr l) (.num i) u =
      some (.arr (l.set i.toNat (.obj (mergeObj node u)))) := by
  simp only [applyFinalSeg]
  rw [if_neg hi, hget]

theorem applyFinal_num_notObj (l : List Jv) (u : List (String × Jv)) (i : Int)
    (w : Jv) (hi : ¬i < 0) (hget : l.get? i.toNat = some w) (hw : w.isObj = false) :
    applyFinalSeg (.arr l) (.num i) u = none := by
  simp only [applyFinalSeg]
  rw [if_neg hi, hget]
  cases w <;> first | rfl | simp [Jv.isObj] at hw

/-- One unfolding of the field-segment arm. -/
theorem update_obj_str_eq (m u : List (String × Jv)) (s : String) (rest : List Jv) :
    updateNodeByPath (.obj m) (.str s :: rest) u =
      if rest.isEmpty then
        match alGet m s with
        | none => (false, .obj m)
        | some (.obj node) => (true, .obj (alSet m s (.obj (mergeObj node u))))
        | some _ => (true, .obj (alSet m s (.obj u)))
      else
        if (updateNodeByPath ((alGet m s).getD .nul) rest u).1 then
          (true, .obj (alSet m s (updateNodeByPath ((alGet m s).getD .nul) rest u).2))
        else (false, .obj m) := rfl

/-- One unfolding of the index-segment arm. -/
theorem update_arr_num_eq (l : List Jv) (u : List (String × Jv)) (i : Int)
    (rest : List Jv) :
    updateNodeByPath (.arr l) (.num i :: rest) u =
      if i < 0 then (false, .arr l)
      else
        match l.get? i.toNat with
        | none => (false, .arr l)
        | some elem =>
          if rest.isEmpty then
            match elem with
            | .obj node => (true, .arr (l.set i.toNat (.obj (mergeObj node u))))
            | _ => (false, .arr l)
          else
            if (updateNodeByPath elem rest u).1 then
              (true, .arr (l.set i.toNat (updateNodeByPath elem rest u).2))
            else (false, .arr l) := rfl

/-- A run whose path ends in one final segment after a resolving prefix is
the final-segment arm, written back along the prefix. -/
theorem update_final_eq (root mid : Jv) (p : List Jv) (seg : Jv)
    (u : List (String × Jv)) (hres : resolvePath root p = some mid) :
    updateNodeByPath root (p ++ [seg]) u =
      match applyFinalSeg mid seg u with
      | none => (false, root)
      | some v => (true, setAt root p v) := by
  have h := update_split u [seg] (by simp) p root
  rw [hres] at h
  have h2 : updateNodeByPath root (p ++ [seg]) u =
      if (updateNodeByPath mid [seg] u).1 then
        (true, setAt root p (updateNodeByPath mid [seg] u).2)
      else (false, root) := h
  rw [h2, update_single]
  cases haf : applyFinalSeg mid seg u <;> simp

/-- On success the tree read back at the same path is the final arm's
written value read at the final segment. -/
theorem update_final_read (root mid v2 : Jv) (p : List Jv) (seg : Jv)
    (u : List (String × Jv)) (hres : resolvePath root p = some mid)
    (haf : applyFinalSeg mid seg u = some v2) :
    (updateNodeByPath root (p ++ [seg]) u).1 = true ∧
      resolvePath (updateNodeByPath root (p ++ [seg]) u).2 (p ++ [seg]) =
        resolvePath v2 [seg] := by
  rw [update_final_eq root mid p seg u hres, haf]
  refine ⟨rfl, ?_⟩
  rw [resolve_append]
  rw [resolve_setAt p root mid v2 hres]
  rfl

/-- A failing tail after a resolving prefix fails the whole run. -/
theorem update_split_fail (root mid : Jv) (p q : List Jv)
    (u : List (String × Jv)) (hq : q ≠ [])
    (hres : resolvePath root p = some mid)
    (hf : (updateNodeByPath mid q u).1 = false) :
    (updateNodeByPath root (p ++ q) u).1 = false := by
  rw [update_split u q hq p root, hres]
  simp [hf]

/-- A final field name absent from the addressed keyed container fails,
whether the segment is final or followed by more segments. -/
theorem update_obj_missing (m u : List (String × Jv)) (s : String)
    (rest : List Jv) (hget : alGet m s = none) :
    (updateNodeByPath (.obj m) (.str s :: rest) u).1 = false := by
  cases rest with
  | nil =>
    rw [update_obj_str_eq]
    simp only [List.isEmpty_nil, if_true]
    rw [hget]
  | cons r rs =>
    rw [update_obj_str_eq]
    simp only [List.isEmpty_cons, Bool.false_eq_true, if_false]
    rw [hget]
    have hn : (updateNodeByPath (Option.getD none Jv.nul) (r :: rs) u).1 = false :=
      update_nul_nonempty r rs u
    rw [hn]
    simp

/-! Claim C1 and C7. -/

/-- C1, counterexample: the claim says a final index segment addressing an
existing list element that is not a keyed container replaces that element
outright, so the update applies; on the tree `a: [1]`, path `["a", 0]`,
`UpdateNodeByPath` instead returns not-applied. -/
theorem update_final_index_replace_cex :
    (updateNodeByPath (Jv.obj [("a", Jv.arr [Jv.num 1])])
        [Jv.str "a", Jv.num 0] [("x", Jv.str "y")]).1 = false := rfl

/-- C1 (amended): at the final segment of a resolving path,
`UpdateNodeByPath` shallow-merges the patch into an addressed keyed
container (patch keys overwrite or add, all other keys are preserved);
a final field name bound to an existing non-container value is replaced
by the patch outright; a final field name that is absent, and a final
index segment addressing an existing element that is not a keyed
container, fail and leave the tree unchanged. -/
theorem updateNodeByPath_final_segment_semantics
    (root mid : Jv) (p : List Jv) (u : List (String × Jv))
    (hres : resolvePath root p = some mid) :
    (∀ s m node, mid = .obj m → alGet m s = some (.obj node) →
      (updateNodeByPath root (p ++ [Jv.str s]) u).1 = true ∧
        resolvePath (updateNodeByPath root (p ++ [Jv.str s]) u).2 (p ++ [Jv.str s]) =
          some (.obj (mergeObj node u))) ∧
    (∀ s m w, mid = .obj m → alGet m s = some w → w.isObj = false →
      (updateNodeByPath root (p ++ [Jv.str s]) u).1 = true ∧
        resolvePath (updateNodeByPath root (p ++ [Jv.str s]) u).2 (p ++ [Jv.str s]) =
          some (.obj u)) ∧
    (∀ s m, mid = .obj m → alGet m s = none →
      updateNodeByPath root (p ++ [Jv.str s]) u = (false, root)) ∧
    (∀ i l node, mid = .arr l → 0 ≤ i → l.get? i.toNat = some (.obj node) →
      (updateNodeByPath root (p ++ [Jv.num i]) u).1 = true ∧
        resolvePath (updateNodeByPath root (p ++ [Jv.num i]) u).2 (p ++ [Jv.num i]) =
          some (.obj (mergeObj node u))) ∧
    (∀ i l w, mid = .arr l → 0 ≤ i → l.get? i.toNat = some w → w.isObj = false →
      updateNodeByPath root (p ++ [Jv.num i]) u = (false, root)) ∧
    (∀ node k v, (u.map Prod.fst).Nodup → alGet u k = some v →
      alGet (mergeObj node u) k = some v) ∧
    (∀ node k, k ∉ u.map Prod.fst → alGet (mergeObj node u) k = alGet node k) := by
  refine ⟨?_, ?_, ?_, ?_, ?_, ?_, ?_⟩
  · intro s m node hm hget
    subst hm
    obtain ⟨h1, h2⟩ := update_final_read root _ _ p (Jv.str s) u hres
      (applyFinal_str_merge m node u s hget)
    refine ⟨h1, ?_⟩
    rw [h2, resolvePath_obj_str, alGet_alSet_self]
    rfl
  · intro s m w hm hget hw
    subst hm
    obtain ⟨h1, h2⟩ := update_final_read root _ _ p (Jv.str s) u hres
      (applyFinal_str_replace m u s w hget hw)
    refine ⟨h1, ?_⟩
    rw [h2, resolvePath_obj_str, alGet_alSet_self]
    rfl
  · intro s m hm hget
    subst hm
    rw [update_final_eq root _ p _ u hres, applyFinal_str_none m u s hget]
  · intro i l node hm hi0 hget
    subst hm
    have hi : ¬i < 0 := not_lt.mpr hi0
    obtain ⟨h1, h2⟩ := update_final_read root _ _ p (Jv.num i) u hres
      (applyFinal_num_merge l node u i hi hget)
    refine ⟨h1, ?_⟩
    have hlen : i.toNat < l.length := (List.get?_eq_some.mp hget).1
    rw [h2, resolvePath_arr_num, if_neg hi, List.get?_set_eq_of_lt _ hlen]
    rfl
  · intro i l w hm hi0 hget hw
    subst hm
    have hi : ¬i < 0 := not_lt.mpr hi0
    rw [update_final_eq root _ p _ u hres, applyFinal_num_notObj l u i w hi hget hw]
  · intro node k v hnd hk
    exact alGet_mergeObj_mem u node k v hnd hk
  · intro node k hk
    exact alGet_mergeObj_not_mem u node k hk

/-- C1 witness: on the tree `c: (x: 1, y: 2)` with path `["c"]` and patch
`(x: 9)`, the update applies; reading the path back gives the merged node,
whose `x` is the patch's and whose `y` is preserved. -/
theorem updateNodeByPath_final_segment_semantics_witness :
    (updateNodeByPath (Jv.obj [("c", Jv.obj [("x", Jv.num 1), ("y", Jv.num 2)])])
        ([] ++ [Jv.str "c"]) [("x", Jv.num 9)]).1 = true ∧
      resolvePath
        (updateNodeByPath (Jv.obj [("c", Jv.obj [("x", Jv.num 1), ("y", Jv.num 2)])])
          ([] ++ [Jv.str "c"]) [("x", Jv.num 9)]).2 ([] ++ [Jv.str "c"]) =
        some (.obj (mergeObj [("x", Jv.num 1), ("y", Jv.num 2)] [("x", Jv.num 9)])) ∧
      alGet (mergeObj [("x", Jv.num 1), ("y", Jv.num 2)] [("x", Jv.num 9)]) "x" =
        some (Jv.num 9) ∧
      alGet (mergeObj [("x", Jv.num 1), ("y", Jv.num 2)] [("x", Jv.num 9)]) "y" =
        some (Jv.num 2) := by
  have h := updateNodeByPath_final_segment_semantics
    (Jv.obj [("c", Jv.obj [("x", Jv.num 1), ("y", Jv.num 2)])])
    (Jv.obj [("c", Jv.obj [("x", Jv.num 1), ("y", Jv.num 2)])])
    [] [("x", Jv.num 9)] rfl
  obtain ⟨ha, hb⟩ := h.1 "c" _ [("x", Jv.num 1), ("y", Jv.num 2)] rfl rfl
  refine ⟨ha, hb, ?_, ?_⟩
  · exact h.2.2.2.2.2.1 [("x", Jv.num 1), ("y", Jv.num 2)] "x" (Jv.num 9)
      (by simp) rfl
  · have := h.2.2.2.2.2.2 [("x", Jv.num 1), ("y", Jv.num 2)] "y" (by simp)
    rw [this]
    rfl

/-- C7: an empty path is never applied; a failed update returns the tree
byte-for-byte unchanged; and after any resolving prefix, a field segment
on a non-container, a field name absent from the addressed container, an
index segment on a non-list, and an out-of-range index all make the
update return not-applied. -/
theorem updateNodeByPath_invalid_path_not_applied
    (root : Jv) (p rest : List Jv) (u : List (String × Jv)) (mid : Jv)
    (hres : resolvePath root p = some mid) :
    updateNodeByPath root [] u = (false, root) ∧
    (∀ q, (updateNodeByPath root q u).1 = false →
      updateNodeByPath root q u = (false, root)) ∧
    (∀ s, mid.isObj = false →
      (updateNodeByPath root (p ++ Jv.str s :: rest) u).1 = false) ∧
    (∀ s m, mid = .obj m → alGet m s = none →
      (updateNodeByPath root (p ++ Jv.str s :: rest) u).1 = false) ∧
    (∀ i, mid.isArr = false →
      (updateNodeByPath root (p ++ Jv.num i :: rest) u).1 = false) ∧
    (∀ i l, mid = .arr l → (i < 0 ∨ l.length ≤ i.toNat) →
      (updateNodeByPath root (p ++ Jv.num i :: rest) u).1 = false) := by
  refine ⟨rfl, fun q => update_failure_eq root q u, ?_, ?_, ?_, ?_⟩
  · intro s hmid
    refine update_split_fail root mid p _ u (by simp) hres ?_
    cases mid <;> first | rfl | simp [Jv.isObj] at hmid
  · intro s m hm hget
    subst hm
    exact update_split_fail root _ p _ u (by simp) hres
      (update_obj_missing m u s rest hget)
  · intro i hmid
    refine update_split_fail root mid p _ u (by simp) hres ?_
    cases mid <;> first | rfl | simp [Jv.isArr] at hmid
  · intro i l hm hoob
    subst hm
    refine update_split_fail root _ p _ u (by simp) hres ?_
    rw [update_arr_num_eq]
    by_cases hi : i < 0
    · rw [if_pos hi]
    · rw [if_neg hi]
      have hoob2 : l.length ≤ i.toNat := by
        rcases hoob with h | h
        · exact absurd h hi
        · exact h
      rw [List.get?_eq_none.mpr hoob2]

/-- C7 witness: on the tree `children: [1]`, the out-of-range path
`["children", 5]` is not applied. -/
theorem updateNodeByPath_invalid_path_not_applied_witness :
    (updateNodeByPath (Jv.obj [("children", Jv.arr [Jv.num 1])])
        ([Jv.str "children"] ++ Jv.num 5 :: []) [("tooltip", Jv.str "t")]).1 = false := by
  have h := updateNodeByPath_invalid_path_not_applied
    (Jv.obj [("children", Jv.arr [Jv.num 1])]) [Jv.str "children"] []
    [("tooltip", Jv.str "t")] (Jv.arr [Jv.num 1]) rfl
  exact h.2.2.2.2.2 5 [Jv.num 1] rfl (Or.inr (by decide))

/-! Claims C2, C5, C6: the model-invocation layer. -/

/-- Exhaustive run analysis: every `CallClaude` run makes at most three
attempts and its sleep sequence is a prefix of `[1, 2]`. -/
theorem callClaude_bounded (oracle : Nat → BedrockResult) :
    (callClaude oracle).attempts ≤ 3 ∧
    ((callClaude oracle).sleeps = [] ∨ (callClaude oracle).sleeps = [1] ∨
      (callClaude oracle).sleeps = [1, 2]) := by
  unfold callClaude
  rcases h0 : oracle 0 with m0 | c0
  · by_cases t0 : isTransientErr m0 = true
    · rcases h1 : oracle 1 with m1 | c1
      · by_cases t1 : isTransientErr m1 = true
        · rcases h2 : oracle 2 with m2 | c2
          · simp [callClaudeAux, h0, h1, h2, t0, t1, maxRetries]
          · cases c2 <;> simp [callClaudeAux, h0, h1, h2, t0, t1, maxRetries]
        · rcases h2 : oracle 2 with m2 | c2
          · simp [callClaudeAux, h0, h1, h2, t0, t1, maxRetries]
          · cases c2 <;> simp [callClaudeAux, h0, h1, h2, t0, t1, maxRetries]
      · cases c1 <;> simp [callClaudeAux, h0, h1, t0, maxRetries]
    · rcases h1 : oracle 1 with m1 | c1
      · by_cases t1 : isTransientErr m1 = true
        · rcases h2 : oracle 2 with m2 | c2
          · simp [callClaudeAux, h0, h1, h2, t0, t1, maxRetries]
          · cases c2 <;> simp [callClaudeAux, h0, h1, h2, t0, t1, maxRetries]
        · rcases h2 : oracle 2 with m2 | c2
          · simp [callClaudeAux, h0, h1, h2, t0, t1, maxRetries]
          · cases c2 <;> simp [callClaudeAux, h0, h1, h2, t0, t1, maxRetries]
      · cases c1 <;> simp [callClaudeAux, h0, h1, t0, maxRetries]
  · cases c0 <;> simp [callClaudeAux, h0, maxRetries]

/-- When all three attempts fail, the run surfaces the last attempt's
failure as the permanent API error, after exactly three attempts. -/
theorem callClaude_all_fail (oracle : Nat → BedrockResult) (m0 m1 m2 : String)
    (h0 : oracle 0 = .failure m0) (h1 : oracle 1 = .failure m1)
    (h2 : oracle 2 = .failure m2) :
    (callClaude oracle).result = .error (.api m2) ∧
      (callClaude oracle).attempts = 3 := by
  unfold callClaude
  by_cases t0 : isTransientErr m0 = true <;> by_cases t1 : isTransientErr m1 = true <;>
    simp [callClaudeAux, h0, h1, h2, t0, t1, maxRetries]

/-- C6, counterexample: with every attempt failing transiently — the worst
case for backoff — the run sleeps 1 then 2 time units, 3 in total; no
4-unit delay and no 7-unit total ever occurs. -/
theorem callClaude_backoff_cex :
    (callClaude (fun _ => .failure "ThrottlingException")).sleeps = [1, 2] ∧
    (callClaude (fun _ => .failure "ThrottlingException")).sleeps.sum = 3 ∧
    (callClaude (fun _ => .failure "ThrottlingException")).sleeps ≠ [1, 2, 4] := by
  have h : (callClaude (fun _ => .failure "ThrottlingException")).sleeps = [1, 2] := rfl
  refine ⟨h, ?_, ?_⟩ <;> rw [h] <;> decide

/-- C6 (amended): `CallClaude` makes at most 3 total attempts; the delay
before a retried transient attempt starts at 1 time unit and doubles
after each slept retry, so the realized delays are a prefix of `[1, 2]`
and the total added retry latency is at most 3 time units; a failure on
the final attempt is surfaced as a permanent failure with no further
attempts. -/
theorem callClaude_retry_policy (oracle : Nat → BedrockResult) :
    (callClaude oracle).attempts ≤ 3 ∧
    (callClaude oracle).sleeps.sum ≤ 3 ∧
    ((callClaude oracle).sleeps = [] ∨ (callClaude oracle).sleeps = [1] ∨
      (callClaude oracle).sleeps = [1, 2]) ∧
    (∀ m0 m1 m2, oracle 0 = .failure m0 → oracle 1 = .failure m1 →
      oracle 2 = .failure m2 →
      (callClaude oracle).result = .error (.api m2) ∧
        (callClaude oracle).attempts = 3) := by
  obtain ⟨ha, hs⟩ := callClaude_bounded oracle
  refine ⟨ha, ?_, hs, ?_⟩
  · rcases hs with h | h | h <;> simp [h]
  · intro m0 m1 m2 e0 e1 e2
    exact callClaude_all_fail oracle m0 m1 m2 e0 e1 e2

/-- C6 witness: the all-transient-failure oracle realizes the policy's
worst case: permanent failure after 3 attempts. -/
theorem callClaude_retry_policy_witness :
    (callClaude (fun _ => .failure "ThrottlingException: rate")).result =
      .error (.api "ThrottlingException: rate") ∧
    (callClaude (fun _ => .failure "ThrottlingException: rate")).attempts = 3 :=
  (callClaude_retry_policy (fun _ => .failure "ThrottlingException: rate")).2.2.2
    _ _ _ rfl rfl rfl

/-- C2: the claim (and the code's own comment, utils.go:663) says a
non-transient failure is surfaced immediately with no further attempts;
instead the loop `continue`s on a non-transient failure unless it was the
last attempt.  With every attempt failing non-transiently the run makes
all 3 attempts (and sleeps no backoff at all); with a non-transient
failure on the first attempt and a success on the second, the run
returns the second attempt's parsed result instead of a failure. -/
theorem callClaude_nontransient_retries :
    (callClaude (fun _ => .failure "operation error AccessDenied")).attempts = 3 ∧
    (callClaude (fun _ => .failure "operation error AccessDenied")).sleeps = [] ∧
    (callClaude (fun i => if i = 0 then .failure "operation error AccessDenied"
        else .success ["\x7b\"tooltip\":\"x\"\x7d"])).attempts = 2 ∧
    (callClaude (fun i => if i = 0 then .failure "operation error AccessDenied"
        else .success ["\x7b\"tooltip\":\"x\"\x7d"])).result =
      .ok [("tooltip", Jv.str "x")] :=
  ⟨rfl, rfl, rfl, rfl⟩

/-- C5: the two-stage output parsing: a whole text that parses as a JSON
object is returned directly; otherwise the first-brace-to-last-brace span
is parsed and returned on success; when both fail the error is a
permanent parse failure carrying the raw text.  `CallClaude` returns the
first attempt's parse when it succeeds on attempt one.  Concretely, a
bare tooltip object parses directly, one wrapped in prose parses via
extraction to the same value, and a braceless text fails permanently. -/
theorem modelResponse_two_stage_parsing :
    (∀ t m, parseJsonObject t = some m → parseModelResponse t = .ok m) ∧
    (∀ t s m, parseJsonObject t = none → extractBraceSpan t = some s →
      parseJsonObject s = some m → parseModelResponse t = .ok m) ∧
    (∀ t s, parseJsonObject t = none → extractBraceSpan t = some s →
      parseJsonObject s = none → parseModelResponse t = .error (.parse t)) ∧
    (∀ t, parseJsonObject t = none → extractBraceSpan t = none →
      parseModelResponse t = .error (.parse t)) ∧
    (∀ oracle t rest, oracle 0 = BedrockResult.success (t :: rest) →
      (callClaude oracle).attempts = 1 ∧
        (callClaude oracle).result = parseModelResponse t) ∧
    parseModelResponse "\x7b\"tooltip\":\"x\"\x7d" = .ok [("tooltip", Jv.str "x")] ∧
    parseModelResponse "here you go: \x7b\"tooltip\":\"x\"\x7d thanks" =
      .ok [("tooltip", Jv.str "x")] ∧
    parseModelResponse "no json here" = .error (.parse "no json here") := by
  refine ⟨?_, ?_, ?_, ?_, ?_, rfl, rfl, rfl⟩
  · intro t m h
    simp [parseModelResponse, h]
  · intro t s m h1 h2 h3
    simp [parseModelResponse, h1, h2, h3]
  · intro t s h1 h2 h3
    simp [parseModelResponse, h1, h2, h3]
  · intro t h1 h2
    simp [parseModelResponse, h1, h2]
  · intro oracle t rest h
    constructor <;> simp [callClaude, callClaudeAux, h, maxRetries]

/-- C5 witness: the direct-parse stage applied to a concrete object. -/
theorem modelResponse_two_stage_parsing_witness :
    parseModelResponse "\x7b\"k\":1\x7d" = .ok [("k", Jv.num 1)] :=
  modelResponse_two_stage_parsing.1 _ [("k", Jv.num 1)] rfl

/-! Claims C3 and C4: the persistence backends. -/

/-- A stored record under identifier `a`. -/
def itemA : MindmapItem :=
  ⟨"a", "f.pdf", "old", ["x"], "", none, "", "t0", "t0"⟩

/-- A second record carrying the same identifier `a`. -/
def itemA2 : MindmapItem :=
  ⟨"a", "g.pdf", "new", [], "", none, "", "t1", "t1"⟩

/-- A record with no caller-supplied identifier. -/
def itemNoId : MindmapItem :=
  ⟨"", "h.pdf", "n", [], "", none, "", "t2", "t2"⟩

/-- C3, counterexample: the claim says create with an existing identifier
fails and does not mutate the record, for both backends; the
document-store variant (`CreateMindmapGCP`, a Firestore `Set`) instead
succeeds and silently overwrites the stored record. -/
theorem createMindmapGCP_overwrite_cex :
    (createMindmapGCP [("a", itemA)] itemA2 "fresh").2 = Except.ok "a" ∧
    alGet (createMindmapGCP [("a", itemA)] itemA2 "fresh").1 "a" = some itemA2 ∧
    itemA2.title ≠ itemA.title := ⟨rfl, rfl, by decide⟩

/-- C3 (amended): the wide-column variant (`CreateMindmap`) is an atomic
create-if-absent — an existing identifier fails with no mutation, an
absent one stores the item — but it never generates an identifier (an
absent one is stored as the empty string); the document-store variant
(`CreateMindmapGCP`) generates the fresh random identifier when none is
supplied, and upserts: an existing identifier is overwritten, not
rejected. -/
theorem create_if_absent_semantics (store : Store) (item : MindmapItem)
    (freshId : String) :
    ((alGet store item.id).isSome = true →
      createMindmap store item = (store, .error .conditionalCheckFailed)) ∧
    (alGet store item.id = none →
      createMindmap store item = (alSet store item.id item, .ok item.id)) ∧
    (item.id ≠ "" →
      createMindmapGCP store item freshId = (alSet store item.id item, .ok item.id)) ∧
    (item.id = "" →
      createMindmapGCP store item freshId =
        (alSet store freshId { item with id := freshId }, .ok freshId)) := by
  refine ⟨?_, ?_, ?_, ?_⟩
  · intro h
    simp [createMindmap, h]
  · intro h
    simp [createMindmap, h]
  · intro h
    simp [createMindmapGCP, h]
  · intro h
    simp [createMindmapGCP, h]

/-- C3 witness: the wide-column create rejects the duplicate identifier
untouched; the document-store create assigns the generated identifier
when none is supplied. -/
theorem create_if_absent_semantics_witness :
    createMindmap [("a", itemA)] itemA2 =
      ([("a", itemA)], .error .conditionalCheckFailed) ∧
    createMindmapGCP [] itemNoId "fresh-uuid" =
      (alSet [] "fresh-uuid" { itemNoId with id := "fresh-uuid" },
        .ok "fresh-uuid") :=
  ⟨(create_if_absent_semantics [("a", itemA)] itemA2 "z").1 rfl,
    (create_if_absent_semantics [] itemNoId "fresh-uuid").2.2.2 rfl⟩

/-- C4: both delete variants issue an unconditional delete and return
`true` whenever the call succeeds: deleting a nonexistent identifier is
reported as `true` ("deleted"), never as the claimed `false` ("nothing
deleted"); an existing record is removed and also reported `true`. -/
theorem delete_nonexistent_reports_true :
    deleteMindmapByID [] "missing" = ([], true) ∧
    deleteMindmapByIDGCP [] "missing" = ([], true) ∧
    deleteMindmapByID [("a", itemA)] "a" = ([], true) ∧
    deleteMindmapByIDGCP [("a", itemA)] "a" = ([], true) := ⟨rfl, rfl, rfl, rfl⟩

/-! Claim C9: the ingestion title fallback. -/

/-- C9, counterexample: the claim says that with a usable model title the
model-returned title is used; the stored title is in fact the trimmed
form, which differs from the model-returned text when that text carries
surrounding whitespace. -/
theorem uploadTitle_trims_cex :
    uploadTitle [("title", Jv.str " Foo ")] "x.pdf" = "Foo" ∧
    uploadTitle [("title", Jv.str " Foo ")] "x.pdf" ≠ " Foo " := by
  have h : uploadTitle [("title", Jv.str " Foo ")] "x.pdf" = "Foo" := rfl
  exact ⟨h, by rw [h]; decide⟩

/-- C9 (amended): when the metadata holds no `title`, a non-string
`title`, or a string title that is empty after trimming whitespace, the
stored title is the upload filename with its extension stripped;
otherwise the stored title is the model-returned title trimmed of
surrounding whitespace. -/
theorem uploadTitle_fallback (metadata : List (String × Jv)) (filename : String) :
    (alGet metadata "title" = none →
      uploadTitle metadata filename = trimSuffix filename (filepathExt filename)) ∧
    (∀ v, alGet metadata "title" = some v → v.isStr = false →
      uploadTitle metadata filename = trimSuffix filename (filepathExt filename)) ∧
    (∀ s, alGet metadata "title" = some (.str s) → goTrimSpace s = "" →
      uploadTitle metadata filename = trimSuffix filename (filepathExt filename)) ∧
    (∀ s, alGet metadata "title" = some (.str s) → goTrimSpace s ≠ "" →
      uploadTitle metadata filename = goTrimSpace s) := by
  refine ⟨?_, ?_, ?_, ?_⟩
  · intro h
    simp [uploadTitle, h, goTrimSpace, isSpaceChar]
  · intro v h hv
    cases v <;> simp [Jv.isStr] at hv <;>
      simp [uploadTitle, h, goTrimSpace, isSpaceChar]
  · intro s h hs
    simp [uploadTitle, h, hs]
  · intro s h hs
    simp [uploadTitle, h, hs]

/-- C9 witness: a numeric title falls back to the filename minus its
extension; a padded string title is stored trimmed. -/
theorem uploadTitle_fallback_witness :
    uploadTitle [("title", Jv.num 3)] "a.pdf" = "a" ∧
    uploadTitle [("title", Jv.str " Bar ")] "a.pdf" = "Bar" := by
  constructor
  · have h := (uploadTitle_fallback [("title", Jv.num 3)] "a.pdf").2.1
      (Jv.num 3) rfl rfl
    rw [h]
    rfl
  · have h := (uploadTitle_fallback [("title", Jv.str " Bar ")] "a.pdf").2.2.2
      " Bar " rfl (by decide)
    rw [h]
    rfl

/-! Claim C10: the subtree actions on a model result with no usable
children. -/

/-- C10: when the model result has no `children` key, or its value is
not a list, the extracted children are the empty (nil) list; the action
does not fail on that account: whenever the path applies, it responds
success carrying the empty children list and the tree patched with
`children = []` (discarding the node's previous children); only a
non-applying path yields the not-found outcome. -/
theorem childrenAction_missing_children (result : List (String × Jv))
    (data : Jv) (path : List Jv) :
    (alGet result "children" = none → extractChildren result = []) ∧
    (∀ v, alGet result "children" = some v → v.isArr = false →
      extractChildren result = []) ∧
    (extractChildren result = [] →
      (updateNodeByPath data path [("children", Jv.arr [])]).1 = true →
      applyChildrenAction result data path =
        some ((updateNodeByPath data path [("children", Jv.arr [])]).2, [])) ∧
    ((updateNodeByPath data path [("children", Jv.arr (extractChildren result))]).1
        = false →
      applyChildrenAction result data path = none) := by
  refine ⟨?_, ?_, ?_, ?_⟩
  · intro h
    simp [extractChildren, h]
  · intro v h hv
    cases v <;> simp [Jv.isArr] at hv <;> simp [extractChildren, h]
  · intro he hu
    simp [applyChildrenAction, he, hu]
  · intro hu
    simp [applyChildrenAction, hu]

/-- C10 witness: a model result with only a `name` patches the addressed
child's `children` to the empty list and reports success with that empty
list. -/
theorem childrenAction_missing_children_witness :
    applyChildrenAction [("name", Jv.str "n")]
        (Jv.obj [("children", Jv.arr [Jv.obj [("name", Jv.str "c"),
          ("children", Jv.arr [Jv.obj []])]])])
        [Jv.str "children", Jv.num 0] =
      some (Jv.obj [("children", Jv.arr [Jv.obj [("name", Jv.str "c"),
        ("children", Jv.arr [])]])], []) := by
  have h := childrenAction_missing_children [("name", Jv.str "n")]
    (Jv.obj [("children", Jv.arr [Jv.obj [("name", Jv.str "c"),
      ("children", Jv.arr [Jv.obj []])]])])
    [Jv.str "children", Jv.num 0]
  rw [h.2.2.1 (h.1 rfl) rfl]
  rfl

/-! Claim C8: the snapshot normalization. -/

/-- C8: `snapshotToMindmapItem` tries the lower-camel then the
upper-camel key before concluding a field is absent; normalizes a
timestamp given as a pre-formatted string, a structured time value, or a
map with a numeric `_seconds` or `seconds` field to the one RFC3339
string; normalizes an authors value given as a single string or as a
(possibly mixed) list to a list of strings; and accepts the tree payload
as a nested map or as a JSON string parsed on read. -/
theorem snapshot_normalization (data : List (String × Jv)) (docId : String) :
    (∀ t, alGet data "title" = none → alGet data "Title" = some (.str t) →
      (snapshotToMindmapItem docId data).title = t) ∧
    (∀ t, alGet data "title" = some (.str t) →
      (snapshotToMindmapItem docId data).title = t) ∧
    (∀ s, fsVal data ["createdAt", "CreatedAt"] = some (.str s) →
      (snapshotToMindmapItem docId data).createdAt = s) ∧
    (∀ t, fsVal data ["createdAt", "CreatedAt"] = some (.time t) →
      (snapshotToMindmapItem docId data).createdAt = isoOfUnix t) ∧
    (∀ m t, fsVal data ["createdAt", "CreatedAt"] = some (.obj m) →
      alGet m "_seconds" = some (.num t) →
      (snapshotToMindmapItem docId data).createdAt = isoOfUnix t) ∧
    (∀ m t, fsVal data ["createdAt", "CreatedAt"] = some (.obj m) →
      alGet m "_seconds" = none → alGet m "seconds" = some (.num t) →
      (snapshotToMindmapItem docId data).createdAt = isoOfUnix t) ∧
    (∀ a, fsVal data ["authors", "Authors"] = some (.str a) →
      (snapshotToMindmapItem docId data).authors = [a]) ∧
    (∀ l, fsVal data ["authors", "Authors"] = some (.arr l) →
      (snapshotToMindmapItem docId data).authors =
        l.map (fun e => match e with | .str s => s | _ => jvDisplay e)) ∧
    (∀ md, fsVal data ["mindmapData", "MindmapData"] = some (.obj md) →
      (snapshotToMindmapItem docId data).mindmapData = some md) ∧
    (∀ s md, fsVal data ["mindmapData", "MindmapData"] = some (.str s) →
      parseJsonObject s = some md →
      (snapshotToMindmapItem docId data).mindmapData = some md) ∧
    (snapshotToMindmapItem docId data).updatedAt =
      toISOStringJv (fsVal data ["updatedAt", "UpdatedAt"]) ∧
    (∀ m t, alGet m "_seconds" = some (.num t) →
      toISOStringJv (some (.obj m)) = isoOfUnix t) := by
  refine ⟨?_, ?_, ?_, ?_, ?_, ?_, ?_, ?_, ?_, ?_, rfl, ?_⟩
  · intro t h1 h2
    simp [snapshotToMindmapItem, getStringKeys, fsVal, h1, h2]
  · intro t h1
    simp [snapshotToMindmapItem, getStringKeys, fsVal, h1]
  · intro s h
    simp [snapshotToMindmapItem, toISOStringJv, h]
  · intro t h
    simp [snapshotToMindmapItem, toISOStringJv, h]
  · intro m t h1 h2
    simp [snapshotToMindmapItem, toISOStringJv, h1, h2]
  · intro m t h1 h2 h3
    simp [snapshotToMindmapItem, toISOStringJv, h1, h2, h3]
  · intro a h
    simp [snapshotToMindmapItem, toStringSlice, h]
  · intro l h
    simp [snapshotToMindmapItem, toStringSlice, h]
  · intro md h
    simp [snapshotToMindmapItem, h]
  · intro s md h1 h2
    simp [snapshotToMindmapItem, h1, h2]
  · intro m t h
    simp [toISOStringJv, h]

/-- C8 witness: a snapshot whose keys arrived upper-camel, whose
`createdAt` is a structured time, whose `updatedAt` is a `_seconds` map,
whose authors mix strings and a number, and whose tree arrived as a JSON
string, normalizes as stated. -/
theorem snapshot_normalization_witness :
    (snapshotToMindmapItem "d"
        [("Title", Jv.str "T"), ("authors", Jv.arr [Jv.str "ann", Jv.num 7]),
          ("createdAt", Jv.time 1700000000),
          ("updatedAt", Jv.obj [("_seconds", Jv.num 1700000000)]),
          ("mindmapData", Jv.str "\x7b\"name\":\"root\"\x7d")]).title = "T" ∧
    (snapshotToMindmapItem "d"
        [("Title", Jv.str "T"), ("authors", Jv.arr [Jv.str "ann", Jv.num 7]),
          ("createdAt", Jv.time 1700000000),
          ("updatedAt", Jv.obj [("_seconds", Jv.num 1700000000)]),
          ("mindmapData", Jv.str "\x7b\"name\":\"root\"\x7d")]).authors =
      ["ann", "7"] ∧
    (snapshotToMindmapItem "d"
        [("Title", Jv.str "T"), ("authors", Jv.arr [Jv.str "ann", Jv.num 7]),
          ("createdAt", Jv.time 1700000000),
          ("updatedAt", Jv.obj [("_seconds", Jv.num 1700000000)]),
          ("mindmapData", Jv.str "\x7b\"name\":\"root\"\x7d")]).createdAt =
      "2023-11-14T22:13:20Z" ∧
    (snapshotToMindmapItem "d"
        [("Title", Jv.str "T"), ("authors", Jv.arr [Jv.str "ann", Jv.num 7]),
          ("createdAt", Jv.time 1700000000),
          ("updatedAt", Jv.obj [("_seconds", Jv.num 1700000000)]),
          ("mindmapData", Jv.str "\x7b\"name\":\"root\"\x7d")]).updatedAt =
      "2023-11-14T22:13:20Z" ∧
    (snapshotToMindmapItem "d"
        [("Title", Jv.str "T"), ("authors", Jv.arr [Jv.str "ann", Jv.num 7]),
          ("createdAt", Jv.time 1700000000),
          ("updatedAt", Jv.obj [("_seconds", Jv.num 1700000000)]),
          ("mindmapData", Jv.str "\x7b\"name\":\"root\"\x7d")]).mindmapData =
      some [("name", Jv.str "root")] := by
  have h := snapshot_normalization
    [("Title", Jv.str "T"), ("authors", Jv.arr [Jv.str "ann", Jv.num 7]),
      ("createdAt", Jv.time 1700000000),
      ("updatedAt", Jv.obj [("_seconds", Jv.num 1700000000)]),
      ("mindmapData", Jv.str "\x7b\"name\":\"root\"\x7d")] "d"
  refine ⟨h.1 "T" rfl rfl, ?_, ?_, ?_, ?_⟩
  · rw [h.2.2.2.2.2.2.2.1 [Jv.str "ann", Jv.num 7] rfl]
    rfl
  · rw [h.2.2.2.1 1700000000 rfl]
    decide
  · rw [h.2.2.2.2.2.2.2.2.2.2.1]
    have hv : fsVal
        [("Title", Jv.str "T"), ("authors", Jv.arr [Jv.str "ann", Jv.num 7]),
          ("createdAt", Jv.time 1700000000),
          ("updatedAt", Jv.obj [("_seconds", Jv.num 1700000000)]),
          ("mindmapData", Jv.str "\x7b\"name\":\"root\"\x7d")]
        ["updatedAt", "UpdatedAt"] =
        some (.obj [("_seconds", Jv.num 1700000000)]) := rfl
    rw [hv, h.2.2.2.2.2.2.2.2.2.2.2 [("_seconds", Jv.num 1700000000)]
      1700000000 rfl]
    decide
  · exact h.2.2.2.2.2.2.2.2.2.1 "\x7b\"name\":\"root\"\x7d"
      [("name", Jv.str "root")] rfl rfl

end NanachiGo
